import Mathlib

/-!
Verification of the receipt_processor repository (Go).

The scoring pipeline (internal/app/app.go) and the resilient Redis store
adapter (internal/db/redis.go) are shallowly embedded below.  Go strings are
modelled as lists of runes (Lean Char); Go byte positions and byte lengths
are recovered by summing UTF-8 sizes.  A float64 currency amount is modelled
by the exact rational value of the double: strconv.ParseFloat's
round-to-nearest-even binary64 rounding is implemented (roundToFloat64
below), and the float64 operations the scoring code then applies to such a
value — math.Floor, multiplication by 4 below the overflow threshold — are
exact, so they are applied over ℚ.  Go's int is int64; scores are
accumulated here in unbounded ℤ, which agrees with Go as long as every
intermediate fits in int64 — the one reachable divergence, the
implementation-defined overflow of the float-to-int conversion in the item
rule at astronomically large prices, is documented and quantified by the
overflow theorem near the end of the file.
-/

/-- A Go string, viewed as its sequence of runes. -/
abbrev GoStr := List Char

/-- Byte size of the UTF-8 encoding of one rune; Go's len on a string sums these. -/
def runeUtf8Size (c : Char) : Nat :=
  if c.toNat ≤ 0x7F then 1 else if c.toNat ≤ 0x7FF then 2
  else if c.toNat ≤ 0xFFFF then 3 else 4

/-- Go len of a string: its UTF-8 byte length. -/
def utf8Len (s : GoStr) : Nat := (s.map runeUtf8Size).sum

/-- Fragment of Go unicode.IsDigit (Unicode category Nd).  Exact on ASCII.
Non-ASCII decimal digits, which Go also accepts here, are modelled as
non-digits: any such rune later makes strconv.ParseFloat fail, so the
success/failure outcome of every parse is unaffected by this restriction
(only which error is reported could differ). -/
def unicodeIsDigit (c : Char) : Bool :=
  48 ≤ c.toNat && c.toNat ≤ 57

/-- ASCII digit test used by the strconv.ParseFloat model (ParseFloat accepts
only ASCII digits). -/
def isAsciiDigit (c : Char) : Bool :=
  48 ≤ c.toNat && c.toNat ≤ 57

/-- Fragment of Go unicode.IsLetter (Unicode letter categories).  Exact on the
ASCII and Latin-1 ranges; runes above U+00FF are modelled as non-letters (no
claim depends on them). -/
def unicodeIsLetter (c : Char) : Bool :=
  (65 ≤ c.toNat && c.toNat ≤ 90) || (97 ≤ c.toNat && c.toNat ≤ 122) ||
  c.toNat == 0xAA || c.toNat == 0xB5 || c.toNat == 0xBA ||
  (0xC0 ≤ c.toNat && c.toNat ≤ 0xD6) || (0xD8 ≤ c.toNat && c.toNat ≤ 0xF6) ||
  (0xF8 ≤ c.toNat && c.toNat ≤ 0xFF)

/-- Numeric value of an ASCII digit rune. -/
def digitVal (c : Char) : Nat := c.toNat - 48

/-- Errors surfaced by the field parsers of internal/app/app.go (the Go code
wraps them in formatted strings; only their identity matters here). -/
inductive GoError where
  | invalidCharacter
  | incorrectValue
  | parseFloatError
  | invalidDate
  | futureDate
  | invalidTime
  | futureTime
deriving DecidableEq

deriving instance DecidableEq for Except

attribute [local semireducible] Rat.add Rat.mul Rat.inv Rat.ofScientific Rat.sub

set_option maxRecDepth 8000

/-- strings.ReplaceAll(amt, ",", ""): delete every comma. -/
def stripCommas (s : GoStr) : GoStr := s.filter (fun c => !(c == ','))

/-- The character/precision loop of parseDollarAsStringInput: walk the runes
with their byte positions; a rune that is neither a digit nor a dot is an
invalid character; a dot must have exactly two bytes after it.  totalLen is
the byte length of the whole string, pos the byte position of the current
rune (the loop is only ever started with pos = 0 and totalLen the length of
the scanned string, so the Nat subtraction below equals Go's int
subtraction). -/
def scanAmt (totalLen : Nat) : GoStr → Nat → Option GoError
  | [], _ => none
  | char :: rest, pos =>
    if unicodeIsDigit char = false ∧ char ≠ '.' then some .invalidCharacter
    else if char = '.' ∧ totalLen - pos - 1 ≠ 2 then some .incorrectValue
    else scanAmt totalLen rest (pos + runeUtf8Size char)

/-- Decimal value of a digit string (most significant first). -/
def digitsToNat (s : GoStr) : Nat := s.foldl (fun n c => n * 10 + digitVal c) 0

/-- The largest finite float64, (2 ^ 53 - 1) * 2 ^ 971, as an exact rational
(written out as a literal so that concrete evaluation never has to fold the
huge exponentiation). -/
def maxFloat64 : ℚ := mkRat 179769313486231570814527423731704356798070567525844996598917476803157260780028538760589558632766878171540458953514382464234321326889464182768467546703537516986049910576551282076245490090389328944075868508455133942304583236903222948165808559332123348274797826204144723168738177180919299881250404026184124858368 1

/-- Round a rational to the nearest integer, ties to the even integer — the
tie rule of IEEE 754 round-to-nearest-even. -/
def roundHalfEven (x : ℚ) : ℤ :=
  let fl := ⌊x⌋
  let fr := x - (fl : ℚ)
  if fr < 1 / 2 then fl
  else if 1 / 2 < fr then fl + 1
  else if fl % 2 = 0 then fl else fl + 1

/-- Largest e with 2 ^ e ≤ q, for q ≥ 1, found by repeated halving; the fuel
bounds the recursion and is chosen (1200) far beyond the float64 exponent
range, so the answer is exact for every q < 2 ^ 1200 — in particular
everywhere the binary64 format can distinguish values, which is all the
range check below needs. -/
def log2Up : Nat → ℚ → Nat
  | 0, _ => 0
  | fuel + 1, q => if q < 2 then 0 else log2Up fuel (q / 2) + 1

/-- Smallest k with q * 2 ^ k ≥ 1, for 0 < q < 1, by repeated doubling; the
parser's grammar has at most two fractional digits, so its smallest positive
value is 0.01 and k never exceeds 7. -/
def log2Down : Nat → ℚ → Nat
  | 0, _ => 0
  | fuel + 1, q => if 1 ≤ q then 0 else log2Down fuel (q * 2) + 1

/-- Binary exponent of a positive rational: the e with 2 ^ e ≤ q < 2 ^ (e+1). -/
def floatExp (q : ℚ) : ℤ :=
  if 1 ≤ q then (log2Up 1200 q : ℤ) else -(log2Down 1200 q : ℤ)

/-- Round a non-negative rational to the value of the nearest binary64
float: scale the 53-bit mantissa window to the integers, round half to
even, and scale back.  Exact on the whole normal range (the parser's
smallest positive value 0.01 is far above the subnormal threshold); a value
that rounds up out of the finite range becomes 2 ^ 1024, which the caller's
range check rejects exactly as Go reports ErrRange for ±Inf. -/
def roundToFloat64 (q : ℚ) : ℚ :=
  if q = 0 then 0
  else
    let s : ℤ := 52 - floatExp q
    (roundHalfEven (q * (2 : ℚ) ^ s) : ℚ) * (2 : ℚ) ^ (-s)

/-- Model of strconv.ParseFloat(s, 64) on the strings that can reach it here:
after scanAmt succeeds the string contains only (Unicode) digits and dots.
ParseFloat accepts a non-empty string of ASCII digits with at most one dot
and at least one digit, and rejects everything else in that fragment (in
particular any non-ASCII digit).  The decimal value is rounded to the
nearest binary64 (round half to even) and the result is the exact rational
value of that double; the range check runs after rounding, as in Go, so a
value just above the largest finite float64 that rounds back down to it is
accepted while one that rounds to ±Inf is a range error. -/
def goParseFloat (s : GoStr) : Option ℚ :=
  let intPart := s.takeWhile (fun c => !(c == '.'))
  let fracPart := (s.dropWhile (fun c => !(c == '.'))).drop 1
  if s ≠ [] ∧ (∀ c ∈ s, isAsciiDigit c = true ∨ c = '.') ∧
     s.count '.' ≤ 1 ∧ (∃ c ∈ s, isAsciiDigit c = true) then
    let v : ℚ := (digitsToNat intPart : ℚ) + (digitsToNat fracPart : ℚ) / 10 ^ fracPart.length
    let f := roundToFloat64 v
    if f ≤ maxFloat64 then some f else none
  else none

/-- parseDollarAsStringInput (internal/app/app.go:53-75): strip commas, run
the character/precision loop, then strconv.ParseFloat. -/
def parseDollarAsStringInput (amtIn : GoStr) : Except GoError ℚ :=
  let amt := stripCommas amtIn
  match scanAmt (utf8Len amt) amt 0 with
  | some e => .error e
  | none =>
    match goParseFloat amt with
    | none => .error .parseFloatError
    | some f => .ok f

example : parseDollarAsStringInput ("36".data) = .ok 36 := by decide
example : parseDollarAsStringInput ("1,234.25".data) = .ok (4937 / 4) := by decide
example : parseDollarAsStringInput ("36.".data) = .error .incorrectValue := by decide
example : parseDollarAsStringInput ("36.5".data) = .error .incorrectValue := by decide
example : parseDollarAsStringInput ("3a.55".data) = .error .invalidCharacter := by decide
example : parseDollarAsStringInput ("0.10".data) = .ok (mkRat 3602879701896397 36028797018963968) := by decide
example : parseDollarAsStringInput ("".data) = .error .parseFloatError := by decide

/-- A receipt line item (internal/app/app.go:27-30). -/
structure Item where
  ShortDescription : GoStr
  Price : GoStr
deriving DecidableEq

/-- A receipt (internal/app/app.go:32-38). -/
structure Receipt where
  Retailer : GoStr
  PurchaseDate : GoStr
  PurchaseTime : GoStr
  Items : List Item
  Total : GoStr
deriving DecidableEq

/-- calculateRetailerPoints (app.go:103-111): one point per rune that is a
Unicode letter or digit. -/
def calculateRetailerPoints (retailer : GoStr) : Int :=
  retailer.foldl (fun count char => if unicodeIsLetter char || unicodeIsDigit char then count + 1 else count) 0

/-- math.Floor on a float64 amount, modelled exactly (the floor of a float64
is exactly representable, so this is the exact float64 semantics). -/
def mathFloor (x : ℚ) : ℚ := mkRat ⌊x⌋ 1

/-- calculateReceiptTotalPoints (app.go:113-127): +50 when the parsed total
equals its floor, +25 when four times the total equals its floor.  The
parsed total is the exact value of a finite double, on which math.Floor and
the equality are exact; multiplying a double by 4 only shifts its exponent,
so that product is exact as well until it leaves the finite range.  When
4 * f does overflow, Go computes +Inf, and Floor(+Inf) = +Inf makes its
test succeed — but a double that large (at least 2 ^ 1022) has ulp far above
1 and is itself an integer, so 4 * f is an integer and the exact test below
succeeds there too: the two semantics agree on every parse result. -/
def calculateReceiptTotalPoints (total : GoStr) : Except GoError Int :=
  match parseDollarAsStringInput total with
  | .error e => .error e
  | .ok receiptTotalAsFloat =>
    let points : Int := 0
    let points := if receiptTotalAsFloat = mathFloor receiptTotalAsFloat then points + 50 else points
    let checkMultipleStatus := receiptTotalAsFloat * 4
    let points := if checkMultipleStatus = mathFloor checkMultipleStatus then points + 25 else points
    .ok points

/-- strings.Trim(s, " "): remove leading and trailing ASCII spaces. -/
def goTrimSpaces (s : GoStr) : GoStr :=
  ((s.dropWhile (fun c => c == ' ')).reverse.dropWhile (fun c => c == ' ')).reverse

/-- The contribution of one iteration of the calculatePointsFromItems loop
(app.go:129-145): if the byte length of the trimmed description is a
multiple of 3, add the mathematical value of math.Ceil(f * 0.2) when the
price parses to the double f and skip the item (contribute 0, Go continue)
when it does not; otherwise contribute 0.  Go's literal 0.2 is the float64
nearest 1/5; the two ceilings agree for every price below 2^42 cents.  Go
then converts the ceiling to int (int64), a conversion that is
implementation-defined once the value exceeds int64 — the overflow theorem
near the end of the file evaluates this contribution at a parser-accepted
price where that happens. -/
def itemPoints (it : Item) : Int :=
  if utf8Len (goTrimSpaces it.ShortDescription) % 3 = 0 then
    match parseDollarAsStringInput it.Price with
    | .error _ => 0
    | .ok f => ⌈f * (0.2 : ℚ)⌉
  else 0

/-- calculatePointsFromItems (app.go:129-145): the accumulation loop over the
items, each iteration contributing itemPoints. -/
def calculatePointsFromItems (items : List Item) : Int :=
  items.foldl (fun points it => points + itemPoints it) 0

/-- A wall-clock instant (UTC), the part of Go time.Time the pipeline
observes: time.Time.After on two such instants is their chronological
(lexicographic) comparison. -/
structure GoInstant where
  year : Nat
  month : Nat
  day : Nat
  hour : Nat
  minute : Nat
deriving DecidableEq

/-- Injective monotone key: chronological order of instants is the order of
their keys (months ≤ 12 < 13, days ≤ 31 < 32, hours < 24, minutes < 60). -/
def instantKey (t : GoInstant) : Nat :=
  (((t.year * 13 + t.month) * 32 + t.day) * 24 + t.hour) * 60 + t.minute

/-- time.Time.After: strictly later. -/
def timeAfter (a b : GoInstant) : Prop := instantKey b < instantKey a

instance (a b : GoInstant) : Decidable (timeAfter a b) := Nat.decLt _ _

/-- Go leap-year rule (time package). -/
def isLeapYear (y : Nat) : Bool :=
  y % 4 == 0 && (y % 100 != 0 || y % 400 == 0)

/-- Days in a month, as Go time.Parse uses to validate the day field. -/
def daysInMonth (y m : Nat) : Nat :=
  if m = 2 then (if isLeapYear y then 29 else 28)
  else if m = 4 ∨ m = 6 ∨ m = 9 ∨ m = 11 then 30 else 31

/-- Field extraction of time.Parse("2006-01-02", s): exactly four digits,
dash, two digits, dash, two digits, nothing after. -/
def parseDateFields : GoStr → Option (Nat × Nat × Nat)
  | [y1, y2, y3, y4, c1, mo1, mo2, c2, d1, d2] =>
    if isAsciiDigit y1 && isAsciiDigit y2 && isAsciiDigit y3 && isAsciiDigit y4 &&
       (c1 == '-') && isAsciiDigit mo1 && isAsciiDigit mo2 && (c2 == '-') &&
       isAsciiDigit d1 && isAsciiDigit d2 then
      some (digitVal y1 * 1000 + digitVal y2 * 100 + digitVal y3 * 10 + digitVal y4,
            digitVal mo1 * 10 + digitVal mo2,
            digitVal d1 * 10 + digitVal d2)
    else none
  | _ => none

/-- Range validity of a parsed calendar date, as time.Parse enforces it. -/
def validDate (y m d : Nat) : Prop :=
  1 ≤ m ∧ m ≤ 12 ∧ 1 ≤ d ∧ d ≤ daysInMonth y m

instance (y m d : Nat) : Decidable (validDate y m d) := by
  unfold validDate; infer_instance

/-- parseDateAsStringInput (app.go:77-88): time.Parse("2006-01-02", s), then
reject dates after time.Now() (the now parameter), returning the
day-of-month. -/
def parseDateAsStringInput (now : GoInstant) (dateString : GoStr) : Except GoError Int :=
  match parseDateFields dateString with
  | none => .error .invalidDate
  | some (y, m, d) =>
    if validDate y m d then
      if timeAfter ⟨y, m, d, 0, 0⟩ now then .error .futureDate
      else .ok (d : Int)
    else .error .invalidDate

/-- The clock part of layout "15:04": one- or two-digit hour (Go accepts
both for the reference hour 15), colon, exactly two-digit minute, nothing
after. -/
def parseClockFields : GoStr → Option (Nat × Nat)
  | [h1, c, m1, m2] =>
    if isAsciiDigit h1 && (c == ':') && isAsciiDigit m1 && isAsciiDigit m2 then
      some (digitVal h1, digitVal m1 * 10 + digitVal m2)
    else none
  | [h1, h2, c, m1, m2] =>
    if isAsciiDigit h1 && isAsciiDigit h2 && (c == ':') && isAsciiDigit m1 && isAsciiDigit m2 then
      some (digitVal h1 * 10 + digitVal h2, digitVal m1 * 10 + digitVal m2)
    else none
  | _ => none

/-- Field extraction of time.Parse("2006-01-02 15:04", s): the date part,
a space, then the clock part. -/
def parseDateTimeFields : GoStr → Option GoInstant
  | y1 :: y2 :: y3 :: y4 :: c1 :: mo1 :: mo2 :: c2 :: d1 :: d2 :: c3 :: rest =>
    if isAsciiDigit y1 && isAsciiDigit y2 && isAsciiDigit y3 && isAsciiDigit y4 &&
       (c1 == '-') && isAsciiDigit mo1 && isAsciiDigit mo2 && (c2 == '-') &&
       isAsciiDigit d1 && isAsciiDigit d2 && (c3 == ' ') then
      match parseClockFields rest with
      | some (hh, mm) =>
        some ⟨digitVal y1 * 1000 + digitVal y2 * 100 + digitVal y3 * 10 + digitVal y4,
              digitVal mo1 * 10 + digitVal mo2,
              digitVal d1 * 10 + digitVal d2, hh, mm⟩
      | none => none
    else none
  | _ => none

/-- parseTimeAsStringInput (app.go:90-101): time.Parse("2006-01-02 15:04",
dateString + " " + timeString) with range validation, then reject instants
after time.Now() (the now parameter). -/
def parseTimeAsStringInput (now : GoInstant) (timeString dateString : GoStr) : Except GoError GoInstant :=
  match parseDateTimeFields (dateString ++ (' ' :: timeString)) with
  | none => .error .invalidTime
  | some t =>
    if validDate t.year t.month t.day ∧ t.hour ≤ 23 ∧ t.minute ≤ 59 then
      if timeAfter t now then .error .futureTime
      else .ok t
    else .error .invalidTime

/-- calculatePurchaseDatePoints (app.go:147-156): +6 for an odd day-of-month. -/
def calculatePurchaseDatePoints (now : GoInstant) (date : GoStr) : Except GoError Int :=
  match parseDateAsStringInput now date with
  | .error e => .error e
  | .ok dayValue => if dayValue % 2 ≠ 0 then .ok 6 else .ok 0

/-- calculatePurchaseTimePoints (app.go:158-172): +10 when the HHMM value is
strictly between 1400 and 1600. -/
def calculatePurchaseTimePoints (now : GoInstant) (timeString dateString : GoStr) : Except GoError Int :=
  match parseTimeAsStringInput now timeString dateString with
  | .error e => .error e
  | .ok purchaseTimeAndDate =>
    let purchaseHHMM := purchaseTimeAndDate.hour * 100 + purchaseTimeAndDate.minute
    if 1400 < purchaseHHMM ∧ purchaseHHMM < 1600 then .ok 10 else .ok 0

/-- The scoring core of ProcessReceiptHandler (app.go:174-229): the rule
contributions accumulated in source order, aborting with the first parser
error.  JSON decoding, UUID minting, the store write and HTTP encoding that
surround this computation in the handler are outside the pipeline.  now
stands for time.Now() at evaluation time.  The accumulator here is
unbounded ℤ where Go's is int (int64) with wrapping addition; the two agree
whenever every intermediate fits in int64, which holds for all but the
astronomical item-rule overflow documented near the end of the file. -/
def processReceiptPipeline (now : GoInstant) (rec : Receipt) : Except GoError Int :=
  let pointsTotal : Int := calculateRetailerPoints rec.Retailer
  match calculateReceiptTotalPoints rec.Total with
  | .error e => .error e
  | .ok pointsFromReceiptTotal =>
    let pointsTotal := pointsTotal + pointsFromReceiptTotal
    let pointsTotal := pointsTotal + ((rec.Items.length : Int) / 2) * 5
    let pointsTotal := pointsTotal + calculatePointsFromItems rec.Items
    match calculatePurchaseDatePoints now rec.PurchaseDate with
    | .error e => .error e
    | .ok pointsFromPurchaseDateDay =>
      let pointsTotal := pointsTotal + pointsFromPurchaseDateDay
      match calculatePurchaseTimePoints now rec.PurchaseTime rec.PurchaseDate with
      | .error e => .error e
      | .ok pointsFromPurchaseTimeHour => .ok (pointsTotal + pointsFromPurchaseTimeHour)

/-- time.Now() used by the concrete examples below. -/
def exampleNow : GoInstant := ⟨2023, 6, 1, 12, 0⟩

/-- The README's second example receipt (retailer Target, five items): its
published score is 28. -/
def exampleReceipt : Receipt :=
  { Retailer := "Target".data
    PurchaseDate := "2022-01-01".data
    PurchaseTime := "13:01".data
    Items := [
      { ShortDescription := "Mountain Dew 12PK".data, Price := "6.49".data },
      { ShortDescription := "Emils Cheese Pizza".data, Price := "12.25".data },
      { ShortDescription := "Knorr Creamy Chicken".data, Price := "1.26".data },
      { ShortDescription := "Doritos Nacho Cheese".data, Price := "3.35".data },
      { ShortDescription := " Klarbrunn 12-PK 12 FL OZ ".data, Price := "12.00".data }]
    Total := "35.35".data }

example : processReceiptPipeline exampleNow exampleReceipt = .ok 28 := by decide
example : calculateReceiptTotalPoints ("9.00".data) = .ok 75 := by decide
example : calculateReceiptTotalPoints ("35.35".data) = .ok 0 := by decide
example : calculateReceiptTotalPoints ("92233720368547758.08".data) = .ok 75 := by decide
example : calculatePurchaseTimePoints exampleNow ("14:33".data) ("2022-03-20".data) = .ok 10 := by decide
example : parseDateAsStringInput exampleNow ("2021-02-29".data) = .error .invalidDate := by decide
example : parseDateAsStringInput exampleNow ("2020-02-29".data) = .ok 29 := by decide
example : parseDateAsStringInput exampleNow ("2100-01-01".data) = .error .futureDate := by decide

/-- Outcome of one backend call made by RedisStore.GetKey
(internal/db/redis.go:34): rs.client.Get(ctx, key).Result(). -/
inductive RedisResp where
  | value (v : String)
  | redisNil
  | deadlineExceeded
  | otherError
deriving DecidableEq

/-- Result of RedisStore.GetKey as the caller observes it: the stored value,
the key-does-not-exist error, the fatal wrapped backend error, or the
max-retries-attempted (store unavailable) error. -/
inductive GetResult where
  | ok (v : String)
  | keyNotFound
  | fatalError
  | storeUnavailable
deriving DecidableEq

/-- Result of RedisStore.SetKey: success, the fatal wrapped backend error, or
the max-retries-attempted error. -/
inductive SetResult where
  | ok
  | fatalError
  | storeUnavailable
deriving DecidableEq

/-- Outcome of one backend call made by RedisStore.SetKey
(redis.go:51): rs.client.Set(ctx, key, value, ttl).Err(). -/
inductive SetResp where
  | setOk
  | deadlineExceeded
  | otherError
deriving DecidableEq

/-- The retry loop of GetKey (redis.go:33-45): i numbers the backend calls
already made, fuel the loop iterations remaining; each iteration makes one
backend call, continues on context.DeadlineExceeded, returns key-not-found
on redis.Nil, fails fatally on any other error, and returns the value on
success.  The second component of the result counts the backend calls made
(an instrumentation of the observable number of attempts; the Go function
does not return it). -/
def getKeyLoop (backend : Nat → RedisResp) : Nat → Nat → GetResult × Nat
  | 0, i => (.storeUnavailable, i)
  | fuel + 1, i =>
    match backend i with
    | .deadlineExceeded => getKeyLoop backend fuel (i + 1)
    | .redisNil => (.keyNotFound, i + 1)
    | .otherError => (.fatalError, i + 1)
    | .value v => (.ok v, i + 1)

/-- RedisStore.GetKey (redis.go:32-47): run the loop for
rs.config.MaxDBConnRetries iterations (a Go int; zero iterations when it is
not positive) and fall through to the max-retries-attempted error.  backend
abstracts the client, the context and the key: backend i is the outcome of
the i-th call. -/
def GetKey (maxRetries : Int) (backend : Nat → RedisResp) : GetResult × Nat :=
  getKeyLoop backend maxRetries.toNat 0

/-- The retry loop of SetKey (redis.go:50-60), same discipline without the
redis.Nil case. -/
def setKeyLoop (backend : Nat → SetResp) : Nat → Nat → SetResult × Nat
  | 0, i => (.storeUnavailable, i)
  | fuel + 1, i =>
    match backend i with
    | .deadlineExceeded => setKeyLoop backend fuel (i + 1)
    | .otherError => (.fatalError, i + 1)
    | .setOk => (.ok, i + 1)

/-- RedisStore.SetKey (redis.go:49-62): backend abstracts the client, the
context, the key, the value and the TTL. -/
def SetKey (maxRetries : Int) (backend : Nat → SetResp) : SetResult × Nat :=
  setKeyLoop backend maxRetries.toNat 0

example : GetKey 3 (fun _ => .deadlineExceeded) = (.storeUnavailable, 3) := by decide
example : GetKey 3 (fun i => if i = 0 then .deadlineExceeded else .redisNil) = (.keyNotFound, 2) := by decide
example : GetKey 3 (fun _ => .value "28") = (.ok "28", 1) := by decide
example : GetKey 0 (fun _ => .value "28") = (.storeUnavailable, 0) := by decide
example : SetKey 2 (fun _ => .otherError) = (.fatalError, 1) := by decide

/-- Number of digit runes after the first decimal point of a string (zero
when nothing follows the first dot). -/
def digitsAfterFirstDot (s : GoStr) : Nat :=
  ((s.dropWhile (fun c => !(c == '.'))).drop 1).countP (fun c => unicodeIsDigit c)

/- ------------------------------------------------------------------ -/
/- Helper lemmas                                                      -/
/- ------------------------------------------------------------------ -/

lemma getKeyLoop_skip (backend : Nat → RedisResp) :
    ∀ (k fuel i : Nat), k ≤ fuel →
      (∀ j, j < k → backend (i + j) = .deadlineExceeded) →
      getKeyLoop backend fuel i = getKeyLoop backend (fuel - k) (i + k) := by
  intro k
  induction k with
  | zero => intro fuel i _ _; simp
  | succ k ih =>
    intro fuel i hk h
    cases fuel with
    | zero => exact (Nat.not_succ_le_zero k hk).elim
    | succ f =>
      have h0 : backend i = .deadlineExceeded := by
        have := h 0 (Nat.succ_pos k); simpa using this
      have step : getKeyLoop backend (f + 1) i = getKeyLoop backend f (i + 1) := by
        simp [getKeyLoop, h0]
      rw [step]
      have hrec := ih f (i + 1) (Nat.le_of_succ_le_succ hk) (fun j hj => by
        have := h (j + 1) (Nat.succ_lt_succ hj)
        have harg : i + (j + 1) = i + 1 + j := by omega
        rwa [harg] at this)
      rw [hrec]
      have h1 : f - k = f + 1 - (k + 1) := by omega
      have h2 : i + 1 + k = i + (k + 1) := by omega
      rw [h1, h2]

lemma setKeyLoop_skip (backend : Nat → SetResp) :
    ∀ (k fuel i : Nat), k ≤ fuel →
      (∀ j, j < k → backend (i + j) = .deadlineExceeded) →
      setKeyLoop backend fuel i = setKeyLoop backend (fuel - k) (i + k) := by
  intro k
  induction k with
  | zero => intro fuel i _ _; simp
  | succ k ih =>
    intro fuel i hk h
    cases fuel with
    | zero => exact (Nat.not_succ_le_zero k hk).elim
    | succ f =>
      have h0 : backend i = .deadlineExceeded := by
        have := h 0 (Nat.succ_pos k); simpa using this
      have step : setKeyLoop backend (f + 1) i = setKeyLoop backend f (i + 1) := by
        simp [setKeyLoop, h0]
      rw [step]
      have hrec := ih f (i + 1) (Nat.le_of_succ_le_succ hk) (fun j hj => by
        have := h (j + 1) (Nat.succ_lt_succ hj)
        have harg : i + (j + 1) = i + 1 + j := by omega
        rwa [harg] at this)
      rw [hrec]
      have h1 : f - k = f + 1 - (k + 1) := by omega
      have h2 : i + 1 + k = i + (k + 1) := by omega
      rw [h1, h2]

/- ------------------------------------------------------------------ -/
/- Claim theorems: the resilient store adapter                        -/
/- ------------------------------------------------------------------ -/

/-- C3: if every backend attempt fails with deadline-exceeded, GetKey and
SetKey perform exactly maxRetries attempts (exactly MaxDBConnRetries.toNat
backend calls) and return the distinct max-retries-attempted (store
unavailable) error; the first attempt that fails with a non-deadline,
non-not-found backend error makes the call return the fatal error
immediately, with no further attempt. -/
theorem c3_retry_exhaustion_and_fatal :
    ∀ (maxRetries : Int) (bg : Nat → RedisResp) (bs : Nat → SetResp),
    ((∀ i, i < maxRetries.toNat → bg i = .deadlineExceeded) →
      GetKey maxRetries bg = (.storeUnavailable, maxRetries.toNat)) ∧
    ((∀ i, i < maxRetries.toNat → bs i = .deadlineExceeded) →
      SetKey maxRetries bs = (.storeUnavailable, maxRetries.toNat)) ∧
    (∀ k, k < maxRetries.toNat → (∀ j, j < k → bg j = .deadlineExceeded) →
      bg k = .otherError → GetKey maxRetries bg = (.fatalError, k + 1)) ∧
    (∀ k, k < maxRetries.toNat → (∀ j, j < k → bs j = .deadlineExceeded) →
      bs k = .otherError → SetKey maxRetries bs = (.fatalError, k + 1)) ∧
    GetResult.storeUnavailable ≠ GetResult.fatalError ∧
    SetResult.storeUnavailable ≠ SetResult.fatalError := by
  intro maxRetries bg bs
  refine ⟨?_, ?_, ?_, ?_, by simp, by simp⟩
  · intro h
    have := getKeyLoop_skip bg maxRetries.toNat maxRetries.toNat 0 (le_refl _)
      (fun j hj => by simpa using h j hj)
    unfold GetKey
    rw [this]
    simp [getKeyLoop]
  · intro h
    have := setKeyLoop_skip bs maxRetries.toNat maxRetries.toNat 0 (le_refl _)
      (fun j hj => by simpa using h j hj)
    unfold SetKey
    rw [this]
    simp [setKeyLoop]
  · intro k hk hpre hit
    have := getKeyLoop_skip bg k maxRetries.toNat 0 (Nat.le_of_lt hk)
      (fun j hj => by simpa using hpre j hj)
    unfold GetKey
    rw [this]
    obtain ⟨m, hm⟩ : ∃ m, maxRetries.toNat - k = m + 1 := ⟨maxRetries.toNat - k - 1, by omega⟩
    rw [hm]
    simp [getKeyLoop, hit]
  · intro k hk hpre hit
    have := setKeyLoop_skip bs k maxRetries.toNat 0 (Nat.le_of_lt hk)
      (fun j hj => by simpa using hpre j hj)
    unfold SetKey
    rw [this]
    obtain ⟨m, hm⟩ : ∃ m, maxRetries.toNat - k = m + 1 := ⟨maxRetries.toNat - k - 1, by omega⟩
    rw [hm]
    simp [setKeyLoop, hit]

/-- Witness for C3 at maxRetries = 3: an all-deadline backend exhausts three
attempts into storeUnavailable, and a backend whose second call is a fatal
error stops after two attempts. -/
theorem c3_witness :
    GetKey 3 (fun _ => RedisResp.deadlineExceeded) = (.storeUnavailable, 3) ∧
    SetKey 3 (fun i => if i ≤ 0 then SetResp.deadlineExceeded else .otherError) = (.fatalError, 2) := by
  constructor
  · exact (c3_retry_exhaustion_and_fatal 3 (fun _ => RedisResp.deadlineExceeded)
      (fun _ => SetResp.deadlineExceeded)).1 (fun i _ => rfl)
  · exact (c3_retry_exhaustion_and_fatal 3 (fun _ => RedisResp.deadlineExceeded)
      (fun i => if i ≤ 0 then SetResp.deadlineExceeded else .otherError)).2.2.2.1 1
      (by decide) (fun j hj => by interval_cases j; decide) (by decide)

/-- C4: a backend attempt that reports the key absent (redis.Nil) makes
GetKey return the key-not-found error immediately on that attempt, with no
retry, and that outcome is a different value from the ok, fatal and
store-unavailable outcomes. -/
theorem c4_key_not_found_immediate :
    ∀ (maxRetries : Int) (bg : Nat → RedisResp) (k : Nat),
      k < maxRetries.toNat → (∀ j, j < k → bg j = .deadlineExceeded) →
      bg k = .redisNil →
      GetKey maxRetries bg = (.keyNotFound, k + 1) ∧
      GetResult.keyNotFound ≠ .storeUnavailable ∧
      GetResult.keyNotFound ≠ .fatalError ∧
      ∀ v, GetResult.keyNotFound ≠ .ok v := by
  intro maxRetries bg k hk hpre hit
  refine ⟨?_, by simp, by simp, by simp⟩
  have := getKeyLoop_skip bg k maxRetries.toNat 0 (Nat.le_of_lt hk)
    (fun j hj => by simpa using hpre j hj)
  unfold GetKey
  rw [this]
  obtain ⟨m, hm⟩ : ∃ m, maxRetries.toNat - k = m + 1 := ⟨maxRetries.toNat - k - 1, by omega⟩
  rw [hm]
  simp [getKeyLoop, hit]

/-- Witness for C4: one deadline-exceeded attempt, then redis.Nil on the
second attempt, stops at attempt 2 with keyNotFound. -/
theorem c4_witness :
    GetKey 3 (fun i => if i ≤ 0 then RedisResp.deadlineExceeded else .redisNil) = (.keyNotFound, 2) :=
  (c4_key_not_found_immediate 3 (fun i => if i ≤ 0 then RedisResp.deadlineExceeded else .redisNil) 1
    (by decide) (fun j hj => by interval_cases j; decide) (by decide)).1

/-- C8: a non-positive MaxDBConnRetries makes the retry loops run zero
iterations, so GetKey and SetKey return the max-retries-attempted error
without a single backend call. -/
theorem c8_nonpositive_retries :
    ∀ (maxRetries : Int) (bg : Nat → RedisResp) (bs : Nat → SetResp),
      maxRetries ≤ 0 →
      GetKey maxRetries bg = (.storeUnavailable, 0) ∧
      SetKey maxRetries bs = (.storeUnavailable, 0) := by
  intro maxRetries bg bs h
  have h0 : maxRetries.toNat = 0 := Int.toNat_of_nonpos h
  constructor
  · unfold GetKey; rw [h0]; rfl
  · unfold SetKey; rw [h0]; rfl

/-- Witness for C8 at maxRetries = -2 with a backend that would answer
successfully: no attempt is made. -/
theorem c8_witness :
    GetKey (-2) (fun _ => RedisResp.value "28") = (.storeUnavailable, 0) ∧
    SetKey (-2) (fun _ => SetResp.setOk) = (.storeUnavailable, 0) :=
  c8_nonpositive_retries (-2) (fun _ => RedisResp.value "28") (fun _ => SetResp.setOk) (by decide)

/- ------------------------------------------------------------------ -/
/- Item and pipeline lemmas                                           -/
/- ------------------------------------------------------------------ -/

lemma foldl_itemPoints (l : List Item) : ∀ a : Int,
    l.foldl (fun points it => points + itemPoints it) a = a + (l.map itemPoints).sum := by
  induction l with
  | nil => intro a; simp
  | cons x xs ih => intro a; simp [List.foldl_cons, ih, add_assoc]

lemma calculatePointsFromItems_eq_sum (items : List Item) :
    calculatePointsFromItems items = (items.map itemPoints).sum := by
  unfold calculatePointsFromItems
  simpa using foldl_itemPoints items 0

lemma itemPoints_zero_of_price_error (it : Item) (e : GoError)
    (h : parseDollarAsStringInput it.Price = .error e) : itemPoints it = 0 := by
  simp [itemPoints, h]

lemma dropWhile_spaces_nil : ∀ (s : GoStr), (∀ c ∈ s, c = ' ') →
    s.dropWhile (fun c => c == ' ') = [] := by
  intro s h
  induction s with
  | nil => rfl
  | cons x xs ih =>
    have hx : x = ' ' := h x (List.mem_cons_self x xs)
    rw [hx, List.dropWhile_cons]
    simp only [beq_self_eq_true, if_true]
    exact ih (fun c hc => h c (List.mem_cons_of_mem x hc))

lemma goTrimSpaces_of_all_space (s : GoStr) (h : ∀ c ∈ s, c = ' ') :
    goTrimSpaces s = [] := by
  unfold goTrimSpaces
  rw [dropWhile_spaces_nil s h]
  rfl

lemma itemPoints_of_space_desc (it : Item) (f : ℚ)
    (hdesc : ∀ c ∈ it.ShortDescription, c = ' ')
    (hp : parseDollarAsStringInput it.Price = .ok f) :
    itemPoints it = ⌈f * (0.2 : ℚ)⌉ := by
  unfold itemPoints
  rw [goTrimSpaces_of_all_space _ hdesc, hp]
  simp [utf8Len]

/- ------------------------------------------------------------------ -/
/- Claim theorems: the scoring pipeline                               -/
/- ------------------------------------------------------------------ -/

/-- C5: the score is invariant under any permutation of the item list: the
pair bonus sees only the count (invariant under permutation) and the item
bonus is a sum of per-item contributions (invariant under permutation), so
the whole pipeline result is unchanged. -/
theorem c5_perm_invariant :
    ∀ (now : GoInstant) (rec : Receipt) (items2 : List Item),
      rec.Items.Perm items2 →
      processReceiptPipeline now rec = processReceiptPipeline now { rec with Items := items2 } := by
  intro now rec items2 hperm
  obtain ⟨retailer, pdate, ptime, items, total⟩ := rec
  have hlen : items.length = items2.length := hperm.length_eq
  have hpts : calculatePointsFromItems items = calculatePointsFromItems items2 := by
    rw [calculatePointsFromItems_eq_sum, calculatePointsFromItems_eq_sum]
    exact List.Perm.sum_eq (List.Perm.map itemPoints hperm)
  simp only [processReceiptPipeline, hlen, hpts]

/-- Witness for C5: swapping the first two items of the README example
receipt leaves the pipeline result unchanged. -/
theorem c5_witness :
    processReceiptPipeline exampleNow exampleReceipt =
      processReceiptPipeline exampleNow { exampleReceipt with Items := [
        { ShortDescription := "Emils Cheese Pizza".data, Price := "12.25".data },
        { ShortDescription := "Mountain Dew 12PK".data, Price := "6.49".data },
        { ShortDescription := "Knorr Creamy Chicken".data, Price := "1.26".data },
        { ShortDescription := "Doritos Nacho Cheese".data, Price := "3.35".data },
        { ShortDescription := " Klarbrunn 12-PK 12 FL OZ ".data, Price := "12.00".data }] } :=
  c5_perm_invariant exampleNow exampleReceipt _ (List.Perm.swap _ _ _)

/-- C9: an item whose description is empty or all ASCII spaces trims to the
empty string, whose byte length 0 is a multiple of 3, so the item is never
excluded from the description rule: whenever its price parses it earns the
ceil(price * 0.2) bonus. -/
theorem c9_empty_description_bonus :
    ∀ (it : Item) (f : ℚ) (l1 l2 : List Item),
      (∀ c ∈ it.ShortDescription, c = ' ') →
      parseDollarAsStringInput it.Price = .ok f →
      utf8Len (goTrimSpaces it.ShortDescription) = 0 ∧
      calculatePointsFromItems (l1 ++ it :: l2) =
        calculatePointsFromItems (l1 ++ l2) + ⌈f * (0.2 : ℚ)⌉ := by
  intro it f l1 l2 hdesc hp
  constructor
  · rw [goTrimSpaces_of_all_space _ hdesc]; rfl
  · rw [calculatePointsFromItems_eq_sum, calculatePointsFromItems_eq_sum]
    simp only [List.map_append, List.map_cons, List.sum_append, List.sum_cons,
      itemPoints_of_space_desc it f hdesc hp]
    ring

/-- Witness for C9: an all-space description with price 1.00 earns
ceil(1 * 0.2) = 1. -/
theorem c9_witness :
    utf8Len (goTrimSpaces (("   ".data : GoStr))) = 0 ∧
    calculatePointsFromItems ([] ++ ({ ShortDescription := "   ".data, Price := "1.00".data } : Item) :: []) =
      calculatePointsFromItems ([] ++ []) + ⌈(1 : ℚ) * (0.2 : ℚ)⌉ :=
  c9_empty_description_bonus { ShortDescription := "   ".data, Price := "1.00".data } 1 [] []
    (by decide) (by decide)

/-- C10: the multiple-of-3 test on a trimmed description counts UTF-8 bytes
(Go len), not runes: description "aé" (2 runes, 3 bytes) earns the bonus
while "ééa" (3 runes, 5 bytes) does not; the retailer rule counts runes, so
retailer "ééa" scores 3, not its byte count 5. -/
theorem c10_bytes_vs_runes :
    calculatePointsFromItems [{ ShortDescription := "aé".data, Price := "1.00".data }] = 1 ∧
    (goTrimSpaces ("aé".data)).length % 3 ≠ 0 ∧
    utf8Len (goTrimSpaces ("aé".data)) % 3 = 0 ∧
    calculatePointsFromItems [{ ShortDescription := "ééa".data, Price := "1.00".data }] = 0 ∧
    (goTrimSpaces ("ééa".data)).length % 3 = 0 ∧
    utf8Len (goTrimSpaces ("ééa".data)) % 3 ≠ 0 ∧
    calculateRetailerPoints ("ééa".data) = 3 ∧
    utf8Len ("ééa".data) = 5 := by
  decide

/-- C2: a parse failure of the total, the purchase date or the purchase time
aborts the pipeline immediately and surfaces exactly that error, while a
parse failure of an individual item's price only removes that item's
contribution (the item loop never produces an error). -/
theorem c2_pipeline_error_policy :
    (∀ (now : GoInstant) (rec : Receipt) (e : GoError),
      calculateReceiptTotalPoints rec.Total = .error e →
      processReceiptPipeline now rec = .error e) ∧
    (∀ (now : GoInstant) (rec : Receipt) (p : Int) (e : GoError),
      calculateReceiptTotalPoints rec.Total = .ok p →
      calculatePurchaseDatePoints now rec.PurchaseDate = .error e →
      processReceiptPipeline now rec = .error e) ∧
    (∀ (now : GoInstant) (rec : Receipt) (p q : Int) (e : GoError),
      calculateReceiptTotalPoints rec.Total = .ok p →
      calculatePurchaseDatePoints now rec.PurchaseDate = .ok q →
      calculatePurchaseTimePoints now rec.PurchaseTime rec.PurchaseDate = .error e →
      processReceiptPipeline now rec = .error e) ∧
    (∀ (l1 l2 : List Item) (bad : Item) (e : GoError),
      parseDollarAsStringInput bad.Price = .error e →
      calculatePointsFromItems (l1 ++ bad :: l2) = calculatePointsFromItems (l1 ++ l2)) := by
  refine ⟨?_, ?_, ?_, ?_⟩
  · intro now rec e h
    simp only [processReceiptPipeline, h]
  · intro now rec p e h1 h2
    simp only [processReceiptPipeline, h1, h2]
  · intro now rec p q e h1 h2 h3
    simp only [processReceiptPipeline, h1, h2, h3]
  · intro l1 l2 bad e hp
    rw [calculatePointsFromItems_eq_sum, calculatePointsFromItems_eq_sum]
    simp [List.map_append, List.sum_append, itemPoints_zero_of_price_error bad e hp]

/-- Witness for C2: an invalid total aborts a receipt with that error, and a
skipped bad-price item contributes nothing to the item points. -/
theorem c2_witness :
    processReceiptPipeline exampleNow
      { Retailer := "T".data, PurchaseDate := "2022-01-01".data, PurchaseTime := "13:01".data,
        Items := [], Total := "x".data } = .error .invalidCharacter ∧
    calculatePointsFromItems ([] ++ ({ ShortDescription := "abc".data, Price := "x".data } : Item) :: []) =
      calculatePointsFromItems ([] ++ []) :=
  ⟨c2_pipeline_error_policy.1 exampleNow _ .invalidCharacter (by decide),
   c2_pipeline_error_policy.2.2.2 [] [] { ShortDescription := "abc".data, Price := "x".data }
     .invalidCharacter (by decide)⟩

/- ------------------------------------------------------------------ -/
/- Parser decomposition                                               -/
/- ------------------------------------------------------------------ -/

lemma parseDollar_ok_parts (s : GoStr) (f : ℚ) (h : parseDollarAsStringInput s = .ok f) :
    scanAmt (utf8Len (stripCommas s)) (stripCommas s) 0 = none ∧
    goParseFloat (stripCommas s) = some f := by
  cases hs : scanAmt (utf8Len (stripCommas s)) (stripCommas s) 0 with
  | some e =>
    exfalso
    simp only [parseDollarAsStringInput, hs] at h
    exact Except.noConfusion h
  | none =>
    cases hg : goParseFloat (stripCommas s) with
    | none =>
      exfalso
      simp only [parseDollarAsStringInput, hs, hg] at h
      exact Except.noConfusion h
    | some v =>
      simp only [parseDollarAsStringInput, hs, hg, Except.ok.injEq] at h
      exact ⟨rfl, by rw [h]⟩

/-- C7: the non-negativity claim is the spec's stated intent (every rule is
designed to contribute at least 0), but the program violates it at
astronomically large yet parser-accepted prices.  The price below parses to
the float64 value 10^20 exactly, the trimmed description has byte length 3,
and the item rule's mathematical contribution ceil(price * 0.2) is
2 * 10^19, which exceeds the largest int64 (2^63 - 1 ≈ 9.22 * 10^18): Go's
int(math.Ceil(f * 0.2)) conversion is then implementation-defined — the
minimum int64, a negative number, on amd64 — so the real pipeline's int64
score for such a receipt is negative.  This theorem evaluates the embedded
item rule at the failing input and shows the int64 bound is exceeded. -/
theorem c7_item_bonus_overflows_int64 :
    itemPoints { ShortDescription := "abc".data, Price := "99999999999999999999.00".data } =
      20000000000000000000 ∧
    (2 ^ 63 - 1 : Int) < 20000000000000000000 := by
  decide

/- ------------------------------------------------------------------ -/
/- The total rule as round/quarter tests                              -/
/- ------------------------------------------------------------------ -/

lemma eq_mathFloor_iff_fract (q : ℚ) : (q = mathFloor q) ↔ Int.fract q = 0 := by
  have h1 : mathFloor q = (⌊q⌋ : ℚ) := by
    unfold mathFloor
    rw [Rat.mkRat_eq_div]
    norm_num
  rw [h1]
  simp only [Int.fract]
  rw [sub_eq_zero, eq_comm]

/-- C6: on every total the currency parser accepts, the rule adds +50 exactly
when the parsed amount's fractional part is zero and, independently, +25
exactly when the amount multiplied by 4 has zero fractional part (the
float64 Floor-comparisons are exact for these tests). -/
theorem c6_total_round_and_quarter :
    ∀ (total : GoStr) (f : ℚ), parseDollarAsStringInput total = .ok f →
      calculateReceiptTotalPoints total =
        .ok ((if Int.fract f = 0 then 50 else 0) + (if Int.fract (f * 4) = 0 then 25 else 0)) := by
  intro total f h
  simp only [calculateReceiptTotalPoints, h]
  refine congrArg Except.ok ?_
  simp only [eq_mathFloor_iff_fract]
  split_ifs <;> ring

/-- Witness for C6: total 9.00 is round and a quarter multiple, earning
50 + 25. -/
theorem c6_witness :
    calculateReceiptTotalPoints ("9.00".data) =
      .ok ((if Int.fract (mkRat 900 100) = 0 then 50 else 0) +
        (if Int.fract ((mkRat 900 100) * 4) = 0 then 25 else 0)) :=
  c6_total_round_and_quarter ("9.00".data) (mkRat 900 100) (by decide)

/- ------------------------------------------------------------------ -/
/- Structure of successful currency scans                             -/
/- ------------------------------------------------------------------ -/

lemma scanAmt_ok_dot (L : Nat) : ∀ (s : GoStr) (pos : Nat), scanAmt L s pos = none →
    ∀ (a b : GoStr), s = a ++ '.' :: b → L - (pos + utf8Len a) - 1 = 2 := by
  intro s
  induction s with
  | nil =>
    intro pos _ a b hab
    exact absurd hab (by simp)
  | cons x xs ih =>
    intro pos h a b hab
    simp only [scanAmt] at h
    split_ifs at h with h1 h2
    cases a with
      | nil =>
        simp only [List.nil_append, List.cons.injEq] at hab
        obtain ⟨hx, hxs⟩ := hab
        have hval : L - pos - 1 = 2 := by
          by_contra hne
          exact h2 ⟨hx, hne⟩
        simpa [utf8Len] using hval
      | cons a0 a' =>
        simp only [List.cons_append, List.cons.injEq] at hab
        obtain ⟨hx, hxs⟩ := hab
        have hrec := ih (pos + runeUtf8Size x) h a' b hxs
        have hlen : utf8Len (a0 :: a') = runeUtf8Size a0 + utf8Len a' := by
          simp [utf8Len]
        rw [hlen, ← hx]
        omega

lemma exists_first_dot : ∀ (s : GoStr), '.' ∈ s → ∃ a b, s = a ++ '.' :: b ∧ '.' ∉ a := by
  intro s
  induction s with
  | nil => intro h; exact absurd h (List.not_mem_nil _)
  | cons x xs ih =>
    intro h
    by_cases hx : x = '.'
    · exact ⟨[], xs, by rw [hx, List.nil_append], List.not_mem_nil _⟩
    · have hmem : '.' ∈ xs := by
        rcases List.mem_cons.mp h with h' | h'
        · exact absurd h'.symm hx
        · exact h'
      obtain ⟨a, b, hab, hna⟩ := ih hmem
      refine ⟨x :: a, b, by rw [List.cons_append, hab], ?_⟩
      intro hm
      rcases List.mem_cons.mp hm with h' | h'
      · exact hx h'.symm
      · exact hna h'

lemma dropWhile_not_dot : ∀ (a b : GoStr), '.' ∉ a →
    (a ++ '.' :: b).dropWhile (fun c => !(c == '.')) = '.' :: b := by
  intro a
  induction a with
  | nil =>
    intro b _
    simp [List.dropWhile_cons]
  | cons x a' ih =>
    intro b hna
    have hx : ¬(x = '.') := fun h => hna (by rw [h]; exact List.mem_cons_self _ _)
    have hbeq : (x == '.') = false := beq_eq_false_iff_ne.mpr hx
    simp only [List.cons_append, List.dropWhile_cons, hbeq, Bool.not_false, if_true]
    exact ih b (fun hm => hna (List.mem_cons_of_mem _ hm))

lemma utf8Len_eq_length (b : GoStr) (h : ∀ c ∈ b, runeUtf8Size c = 1) :
    utf8Len b = b.length := by
  induction b with
  | nil => rfl
  | cons x xs ih =>
    have hx := h x (List.mem_cons_self _ _)
    have hxs := ih (fun c hc => h c (List.mem_cons_of_mem _ hc))
    simp only [utf8Len, List.map_cons, List.sum_cons, List.length_cons] at hxs ⊢
    omega

lemma goParseFloat_some_props (s : GoStr) (f : ℚ) (h : goParseFloat s = some f) :
    (∀ c ∈ s, isAsciiDigit c = true ∨ c = '.') ∧ s.count '.' ≤ 1 := by
  simp only [goParseFloat] at h
  split_ifs at h with h1 h2
  all_goals first
    | exact Option.noConfusion h
    | exact ⟨h1.2.1, h1.2.2.1⟩

/- ------------------------------------------------------------------ -/
/- Claim theorems: the currency parser                                -/
/- ------------------------------------------------------------------ -/

/-- C1 counterexample: the whole-dollar input "36" contains no decimal point
after comma-stripping, yet parseDollarAsStringInput accepts it and returns
36 — the character/precision loop only rejects a bad decimal tail when a dot
is present, and strconv.ParseFloat accepts a plain digit string. -/
theorem c1_counterexample :
    ('.' ∉ stripCommas ("36".data)) ∧ parseDollarAsStringInput ("36".data) = .ok 36 := by
  decide

/-- C1 as amended: for every input whose comma-stripped form does contain a
decimal point, if the digits after the first decimal point number zero or
more than two, parseDollarAsStringInput returns an error; inputs with no
decimal point at all (such as "36") are not rejected on that ground. -/
theorem c1_dot_precision_rejection :
    ∀ s : GoStr, '.' ∈ stripCommas s →
      (digitsAfterFirstDot (stripCommas s) = 0 ∨ 2 < digitsAfterFirstDot (stripCommas s)) →
      ∃ e, parseDollarAsStringInput s = .error e := by
  intro s hdot hd
  cases hp : parseDollarAsStringInput s with
  | error e => exact ⟨e, rfl⟩
  | ok f =>
    exfalso
    obtain ⟨hscan, hgp⟩ := parseDollar_ok_parts s f hp
    obtain ⟨a, b, hab, hna⟩ := exists_first_dot (stripCommas s) hdot
    have hdigits : digitsAfterFirstDot (stripCommas s) = b.countP (fun c => unicodeIsDigit c) := by
      unfold digitsAfterFirstDot
      rw [hab, dropWhile_not_dot a b hna]
      simp
    have hLdot := scanAmt_ok_dot (utf8Len (stripCommas s)) (stripCommas s) 0 hscan a b hab
    have hdotsize : runeUtf8Size '.' = 1 := rfl
    have hlen_t : utf8Len (stripCommas s) = utf8Len a + 1 + utf8Len b := by
      rw [hab]
      simp only [utf8Len, List.map_append, List.sum_append, List.map_cons, List.sum_cons, hdotsize]
      omega
    have hb2 : utf8Len b = 2 := by omega
    obtain ⟨hall, hcount⟩ := goParseFloat_some_props (stripCommas s) f hgp
    have hnodotb : '.' ∉ b := by
      rw [hab] at hcount
      rw [List.count_append, List.count_cons_self] at hcount
      have hb0 : b.count '.' = 0 := by omega
      exact List.count_eq_zero.mp hb0
    have hbdig : ∀ c ∈ b, unicodeIsDigit c = true := by
      intro c hc
      have hmem : c ∈ stripCommas s := by
        rw [hab]
        simp [hc]
      rcases hall c hmem with h | h
      · exact h
      · exact absurd (h ▸ hc) hnodotb
    have hsize1 : ∀ c ∈ b, runeUtf8Size c = 1 := by
      intro c hc
      have hdig := hbdig c hc
      simp only [unicodeIsDigit, Bool.and_eq_true, decide_eq_true_eq] at hdig
      unfold runeUtf8Size
      rw [if_pos (by omega)]
    have hlb : b.length = 2 := by
      rw [← utf8Len_eq_length b hsize1]
      exact hb2
    have hcp : b.countP (fun c => unicodeIsDigit c) = 2 := by
      rw [List.countP_eq_length.mpr hbdig]
      exact hlb
    rw [hdigits, hcp] at hd
    omega

/-- Witness for the amended C1 at "36.": a dot with zero digits after it is
rejected. -/
theorem c1_witness :
    ('.' ∈ stripCommas ("36.".data)) ∧ (∃ e, parseDollarAsStringInput ("36.".data) = .error e) :=
  ⟨by decide, c1_dot_precision_rejection ("36.".data) (by decide) (by decide)⟩
